import Mathlib

/-!
Verification development for the pairs-trade position monitor
(src/positions_app.py, "Мониторинг позиций", version 1.4).

The program is a single Streamlit application.  Its computational core is:

* `calculate_metrics` — fetches two price histories, truncates them to a
  common trailing length (rejecting lengths below 50), computes an OLS
  hedge ratio, the spread `prices1 - hedge_ratio * prices2`, and the
  z-score series `(spread - spread.mean()) / spread.std()`; any failure
  yields `None`.
* a module-level evaluation loop over the session position list, which
  skips non-active positions, classifies the current z-score against
  fixed thresholds, and estimates PnL with the fixed factor 1.5.

Embedding conventions: Python floats are modelled as exact rationals `ℚ`;
the square root taken by `numpy.std` forces the z-score series into `ℝ`
via `Real.sqrt`.  The provider (ccxt fetch, symbol-variant loop) is an
external collaborator and is modelled as an oracle returning `Option`
data, matching the fact that `calculate_metrics` returns `None` on any
provider failure.
-/

/-- Source constant `VOLATILITY_FACTOR = 1.5` (src/positions_app.py line 18). -/
def VOLATILITY_FACTOR : ℚ := 1.5

/-- Status classification of the evaluation loop
(src/positions_app.py lines 197-210): `dist_to_mean = abs(curr_z)`,
then the if/elif chain over the fixed thresholds 0.3, 1.0, 3.5. -/
def statusOf (curr_z : ℚ) : String :=
  let dist_to_mean := |curr_z|
  if dist_to_mean < 0.3 then "💰 ЗАКРЫВАТЬ"
  else if dist_to_mean < 1.0 then "⚠️ Близко"
  else if dist_to_mean > 3.5 then "🚨 ОПАСНО"
  else "✅ Держим"

/-- PnL percentage (src/positions_app.py lines 216-220):
`z_delta = abs(entry_z) - abs(curr_z)`; `pnl_percent = z_delta * VOLATILITY_FACTOR`. -/
def pnl_percent (entry_z curr_z : ℚ) : ℚ :=
  (|entry_z| - |curr_z|) * VOLATILITY_FACTOR

/-- PnL in dollars (src/positions_app.py line 223):
`pnl_usd = pos['size'] * (pnl_percent / 100)`. -/
def pnl_usd (size entry_z curr_z : ℚ) : ℚ :=
  size * (pnl_percent entry_z curr_z / 100)

/-- A session position (src/positions_app.py lines 87-95): the dict built
by the add-position button handler.  `entry_time` is never read by any
modelled computation and is omitted. -/
structure Position where
  pair : String
  coin1 : String
  coin2 : String
  entry_z : ℚ
  size : ℚ
  status : String
deriving DecidableEq, Repr

/-- The data dict returned by a successful `calculate_metrics` call, as
consumed by the evaluation loop.  The loop reads only `current_z` (the
other fields — `z_history`, `dates`, `price1`, `price2` — feed the chart
rendering only); `z_history` is kept to mirror the record shape, the
rest are omitted.  At this level the current z-score is treated as an
exact rational supplied by the provider oracle. -/
structure FetchedData where
  current_z : ℚ
  z_history : List ℚ
deriving DecidableEq, Repr

/-- One row of `positions_data` (src/positions_app.py lines 225-236):
either the full record appended when `calculate_metrics` returned data,
or the `{'id': i, 'pair': ..., 'error': True}` record. -/
inductive Row where
  | ok (id : ℕ) (pair : String) (entry_z curr_z : ℚ) (status : String)
       (pnl_pct pnl_usd : ℚ) (data : FetchedData)
  | err (id : ℕ) (pair : String)
deriving DecidableEq, Repr

/-- The enumeration index `i` carried by a row. -/
def Row.id : Row → ℕ
  | .ok i _ _ _ _ _ _ _ => i
  | .err i _ => i

/-- The status string of a successful row; `none` for an error row (an
error row is rendered as an error message and carries no status or PnL,
src/positions_app.py lines 249-251). -/
def Row.statusStr : Row → Option String
  | .ok _ _ _ _ s _ _ _ => some s
  | .err _ _ => none

/-- The (pnl_percent, pnl_usd) pair of a successful row; `none` for an
error row (no PnL figure is rendered for an error row). -/
def Row.pnl : Row → Option (ℚ × ℚ)
  | .ok _ _ _ _ _ p u _ => some (p, u)
  | .err _ _ => none

/-- The row built for one enumerated active position
(src/positions_app.py lines 188-236): call `calculate_metrics`; on data,
append the full record with status and PnL; on `None`, append the error
record. -/
def rowOf (fetch : String → String → Option FetchedData) (ip : ℕ × Position) : Row :=
  match fetch ip.2.coin1 ip.2.coin2 with
  | some data =>
      Row.ok ip.1 ip.2.pair ip.2.entry_z data.current_z (statusOf data.current_z)
        (pnl_percent ip.2.entry_z data.current_z)
        (pnl_usd ip.2.size ip.2.entry_z data.current_z) data
  | none => Row.err ip.1 ip.2.pair

/-- The evaluation loop body over the enumerated position list
(src/positions_app.py lines 185-236): `for i, pos in enumerate(...)`,
skipping positions whose status is not `'active'`, appending one row per
remaining position. -/
def evalLoopAux (fetch : String → String → Option FetchedData) :
    List (ℕ × Position) → List Row
  | [] => []
  | ip :: rest =>
      if ip.2.status ≠ "active" then evalLoopAux fetch rest
      else rowOf fetch ip :: evalLoopAux fetch rest

/-- One full evaluation pass: enumerate the session position list and run
the loop body. -/
def evalLoop (fetch : String → String → Option FetchedData)
    (positions : List Position) : List Row :=
  evalLoopAux fetch positions.enum

/-- Loop structure lemma: the evaluation pass is exactly a map of `rowOf`
over the active-filtered enumeration — each position's row depends only
on its own fetch outcome, and no outcome removes or reorders the rows of
the other positions. -/
theorem evalLoopAux_eq_map (fetch : String → String → Option FetchedData) :
    ∀ l : List (ℕ × Position),
      evalLoopAux fetch l =
        (l.filter (fun ip => ip.2.status == "active")).map (rowOf fetch) := by
  intro l
  induction l with
  | nil => rfl
  | cons ip rest ih =>
      by_cases h : ip.2.status = "active"
      · simp [evalLoopAux, List.filter_cons, h, ih]
      · simp [evalLoopAux, List.filter_cons, h, ih]

/-- The first branch is taken exactly below 0.3. -/
lemma statusOf_eq_close_iff (z : ℚ) :
    statusOf z = "💰 ЗАКРЫВАТЬ" ↔ |z| < 0.3 := by
  simp only [statusOf]
  split_ifs with h1 h2 h3
  · exact iff_of_true rfl h1
  · exact iff_of_false (by decide) h1
  · exact iff_of_false (by decide) h1
  · exact iff_of_false (by decide) h1

/-- The second branch is taken exactly on [0.3, 1.0). -/
lemma statusOf_eq_approach_iff (z : ℚ) :
    statusOf z = "⚠️ Близко" ↔ 0.3 ≤ |z| ∧ |z| < 1.0 := by
  simp only [statusOf]
  split_ifs with h1 h2 h3
  · exact iff_of_false (by decide) (fun h => absurd h.1 (not_le.mpr h1))
  · exact iff_of_true rfl ⟨not_lt.mp h1, h2⟩
  · exact iff_of_false (by decide) (fun h => absurd h.2 h2)
  · exact iff_of_false (by decide) (fun h => absurd h.2 h2)

/-- The third branch is taken exactly above 3.5. -/
lemma statusOf_eq_danger_iff (z : ℚ) :
    statusOf z = "🚨 ОПАСНО" ↔ |z| > 3.5 := by
  simp only [statusOf]
  split_ifs with h1 h2 h3
  · exact iff_of_false (by decide) (fun h => absurd (lt_trans h h1) (by norm_num))
  · exact iff_of_false (by decide) (fun h => absurd (lt_trans h h2) (by norm_num))
  · exact iff_of_true rfl h3
  · exact iff_of_false (by decide) h3

/-- The default branch is taken exactly on [1.0, 3.5]. -/
lemma statusOf_eq_hold_iff (z : ℚ) :
    statusOf z = "✅ Держим" ↔ 1.0 ≤ |z| ∧ |z| ≤ 3.5 := by
  simp only [statusOf]
  split_ifs with h1 h2 h3
  · exact iff_of_false (by decide)
      (fun h => absurd (lt_of_le_of_lt h.1 h1) (by norm_num))
  · exact iff_of_false (by decide)
      (fun h => absurd (lt_of_le_of_lt h.1 h2) (lt_irrefl _))
  · exact iff_of_false (by decide)
      (fun h => absurd (lt_of_lt_of_le h3 h.2) (lt_irrefl _))
  · exact iff_of_true rfl ⟨not_lt.mp h2, not_lt.mp h3⟩

/-- C1: status classification is a pure function of the current z-score
only: with d = abs(current z-score), the row status is the
close-now label iff d < 0.3, the approaching label iff 0.3 ≤ d < 1.0,
the danger label iff d > 3.5, and the hold label otherwise; the
boundary inputs 0.3, 0.2999, 3.5 and 3.50001 classify as approaching,
close-now, hold and danger respectively; and the status stored in an
evaluated row is `statusOf` of the fetched current z-score alone,
independent of the position's entry z-score. -/
theorem status_classification_of_current_z :
    (∀ z : ℚ,
      (statusOf z = "💰 ЗАКРЫВАТЬ" ↔ |z| < 0.3) ∧
      (statusOf z = "⚠️ Близко" ↔ 0.3 ≤ |z| ∧ |z| < 1.0) ∧
      (statusOf z = "🚨 ОПАСНО" ↔ |z| > 3.5) ∧
      (statusOf z = "✅ Держим" ↔ 1.0 ≤ |z| ∧ |z| ≤ 3.5)) ∧
    statusOf 0.3 = "⚠️ Близко" ∧
    statusOf 0.2999 = "💰 ЗАКРЫВАТЬ" ∧
    statusOf 3.5 = "✅ Держим" ∧
    statusOf 3.50001 = "🚨 ОПАСНО" ∧
    (∀ (fetch : String → String → Option FetchedData) (ip : ℕ × Position)
        (d : FetchedData),
      fetch ip.2.coin1 ip.2.coin2 = some d →
        (rowOf fetch ip).statusStr = some (statusOf d.current_z)) := by
  refine ⟨fun z => ⟨statusOf_eq_close_iff z, statusOf_eq_approach_iff z,
      statusOf_eq_danger_iff z, statusOf_eq_hold_iff z⟩, ?_, ?_, ?_, ?_, ?_⟩
  · exact (statusOf_eq_approach_iff _).mpr (by norm_num [abs_of_nonneg])
  · exact (statusOf_eq_close_iff _).mpr (by norm_num [abs_of_nonneg])
  · exact (statusOf_eq_hold_iff _).mpr (by norm_num [abs_of_nonneg])
  · exact (statusOf_eq_danger_iff _).mpr (by norm_num [abs_of_nonneg])
  · intro fetch ip d h
    simp only [rowOf, h, Row.statusStr]

/-- A provider oracle and a position used to instantiate the loop-level
theorems at concrete inputs. -/
def fetch1 : String → String → Option FetchedData := fun _ _ => some ⟨1, [1]⟩

/-- Concrete active position matching the sidebar defaults. -/
def pos1 : Position :=
  { pair := "TNSR/ME", coin1 := "TNSR", coin2 := "ME",
    entry_z := -2, size := 1000, status := "active" }

/-- C1 witness: the classification conjunct instantiated at a concrete
fetch outcome. -/
theorem status_classification_of_current_z_witness :
    fetch1 pos1.coin1 pos1.coin2 = some ⟨1, [1]⟩ ∧
    (rowOf fetch1 (0, pos1)).statusStr = some (statusOf (1 : ℚ)) :=
  ⟨rfl, status_classification_of_current_z.2.2.2.2.2 fetch1 (0, pos1) ⟨1, [1]⟩ rfl⟩

/-- C2: the reported PnL of every evaluated position is
pnl_percent = (abs(entry_z) - abs(current_z)) * 1.5 and
pnl_usd = size * pnl_percent / 100, with the volatility factor fixed at
1.5; the worked example entry_z = -2.3, current_z = -1, size = 1000
yields 1.95 percent and 19.50 dollars. -/
theorem pnl_estimation_formula :
    (∀ e c s : ℚ,
      pnl_percent e c = (|e| - |c|) * 1.5 ∧
      pnl_usd s e c = s * (pnl_percent e c / 100)) ∧
    VOLATILITY_FACTOR = 1.5 ∧
    pnl_percent (-2.3) (-1) = 1.95 ∧
    pnl_usd 1000 (-2.3) (-1) = 19.5 ∧
    (∀ (fetch : String → String → Option FetchedData) (ip : ℕ × Position)
        (d : FetchedData),
      fetch ip.2.coin1 ip.2.coin2 = some d →
        (rowOf fetch ip).pnl =
          some (pnl_percent ip.2.entry_z d.current_z,
                pnl_usd ip.2.size ip.2.entry_z d.current_z)) := by
  refine ⟨fun e c s => ⟨rfl, rfl⟩, rfl, ?_, ?_, ?_⟩
  · norm_num [pnl_percent, VOLATILITY_FACTOR, abs_of_nonneg, abs_of_nonpos]
  · norm_num [pnl_usd, pnl_percent, VOLATILITY_FACTOR, abs_of_nonneg, abs_of_nonpos]
  · intro fetch ip d h
    simp only [rowOf, h, Row.pnl]

/-- C2 witness: the reported-PnL conjunct instantiated at a concrete
fetch outcome. -/
theorem pnl_estimation_formula_witness :
    fetch1 pos1.coin1 pos1.coin2 = some ⟨1, [1]⟩ ∧
    (rowOf fetch1 (0, pos1)).pnl =
      some (pnl_percent pos1.entry_z 1, pnl_usd pos1.size pos1.entry_z 1) :=
  ⟨rfl, pnl_estimation_formula.2.2.2.2 fetch1 (0, pos1) ⟨1, [1]⟩ rfl⟩

/-- C3: one evaluation pass maps every active position to exactly one
row, an error row when its metrics computation fails (`none`) and the
normal record otherwise; each row is a function of that position's own
fetch outcome, so no per-position failure removes, reorders or aborts
the evaluation of the remaining positions. -/
theorem per_position_error_isolation :
    ∀ (fetch : String → String → Option FetchedData) (ps : List Position),
      evalLoop fetch ps =
        (ps.enum.filter (fun ip => ip.2.status == "active")).map (fun ip =>
          match fetch ip.2.coin1 ip.2.coin2 with
          | some d =>
              Row.ok ip.1 ip.2.pair ip.2.entry_z d.current_z
                (statusOf d.current_z) (pnl_percent ip.2.entry_z d.current_z)
                (pnl_usd ip.2.size ip.2.entry_z d.current_z) d
          | none => Row.err ip.1 ip.2.pair) := by
  intro fetch ps
  rw [evalLoop, evalLoopAux_eq_map]
  rfl

/-- C10: the PnL estimate depends only on the absolute values of the
entry and current z-scores — negating either argument leaves both
figures unchanged — and equal magnitudes yield exactly zero PnL. -/
theorem pnl_depends_only_on_abs :
    ∀ e c s : ℚ,
      pnl_percent e (-c) = pnl_percent e c ∧
      pnl_percent (-e) c = pnl_percent e c ∧
      pnl_usd s e (-c) = pnl_usd s e c ∧
      pnl_usd s (-e) c = pnl_usd s e c ∧
      (|c| = |e| → pnl_percent e c = 0 ∧ pnl_usd s e c = 0) := by
  intro e c s
  refine ⟨by simp [pnl_percent], by simp [pnl_percent],
    by simp [pnl_usd, pnl_percent], by simp [pnl_usd, pnl_percent],
    fun h => ⟨?_, ?_⟩⟩
  · simp [pnl_percent, h]
  · simp [pnl_usd, pnl_percent, h]

/-- C10 witness: opposite-signed z-scores of equal magnitude give zero
PnL at a concrete input. -/
theorem pnl_depends_only_on_abs_witness :
    |(-2 : ℚ)| = |(2 : ℚ)| ∧ pnl_percent 2 (-2) = 0 ∧ pnl_usd 5 2 (-2) = 0 :=
  ⟨by decide, (pnl_depends_only_on_abs 2 (-2) 5).2.2.2.2 (by decide)⟩

/-- Arithmetic mean (`numpy .mean()`): sum over length.  Lean's
division by zero returns 0 for the empty list; every use below has
length at least 50. -/
def listMean (xs : List ℚ) : ℚ := xs.sum / xs.length

/-- Sum of pairwise products of deviations from the respective full-list
means (the numerator common to OLS slope and covariance). -/
def demeanedDot (xs ys : List ℚ) : ℚ :=
  (List.zipWith (fun a b => (a - listMean xs) * (b - listMean ys)) xs ys).sum

/-- OLS slope `results.params[1]` of
`sm.OLS(prices1, sm.add_constant(prices2)).fit()`
(src/positions_app.py lines 153-157): by the normal equations, the
slope of a least-squares fit of `prices1` on an intercept plus
`prices2` is the demeaned cross moment divided by the demeaned second
moment of `prices2`. -/
def hedge_ratio (prices1 prices2 : List ℚ) : ℚ :=
  demeanedDot prices2 prices1 / demeanedDot prices2 prices2

/-- `spread = prices1 - hedge_ratio * prices2`, element-wise
(src/positions_app.py line 160). -/
def spreadOf (prices1 prices2 : List ℚ) : List ℚ :=
  List.zipWith (fun a b => a - hedge_ratio prices1 prices2 * b) prices1 prices2

/-- Population variance over the whole list: mean of squared deviations,
i.e. division by N, not N - 1 (numpy ddof = 0, the default taken by
`spread.std()` on line 162). -/
def popVar (xs : List ℚ) : ℚ :=
  (xs.map (fun x => (x - listMean xs) ^ 2)).sum / xs.length

/-- `spread.std()`: the square root of the ddof = 0 variance. -/
noncomputable def stdOf (xs : List ℚ) : ℝ := Real.sqrt (popVar xs)

/-- `z_score_series = (spread - mean) / std`, element-wise over the
entire supplied window (src/positions_app.py lines 161-163). -/
noncomputable def z_score_series (spread : List ℚ) : List ℝ :=
  spread.map (fun x : ℚ => ((x : ℝ) - (listMean spread : ℝ)) / stdOf spread)

/-- Population covariance of two aligned series. -/
def covariance (xs ys : List ℚ) : ℚ := demeanedDot xs ys / xs.length

/-- A constant series: all elements equal. -/
def allSame (xs : List ℚ) : Prop := ∀ x ∈ xs, ∀ y ∈ xs, x = y

instance (xs : List ℚ) : Decidable (allSame xs) :=
  inferInstanceAs (Decidable (∀ x ∈ xs, ∀ y ∈ xs, x = y))

lemma sum_zipWith_sub_smul (β : ℚ) :
    ∀ (xs ys : List ℚ), xs.length = ys.length →
      (List.zipWith (fun a b => a - β * b) xs ys).sum = xs.sum - β * ys.sum := by
  intro xs
  induction xs with
  | nil =>
      intro ys h
      cases ys with
      | nil => simp
      | cons b ys => simp at h
  | cons a xs ih =>
      intro ys h
      cases ys with
      | nil => simp at h
      | cons b ys =>
          simp only [List.zipWith_cons_cons, List.sum_cons]
          rw [ih ys (by simpa using h)]
          ring

lemma sum_zipWith_demeaned (β m1 m2 : ℚ) :
    ∀ (p1 p2 : List ℚ), p1.length = p2.length →
      (List.zipWith (fun a b => (a - (m1 - β * m2)) * (b - m2))
        (List.zipWith (fun a b => a - β * b) p1 p2) p2).sum
      = (List.zipWith (fun a b => (a - m1) * (b - m2)) p1 p2).sum
        - β * (List.zipWith (fun a b => (a - m2) * (b - m2)) p2 p2).sum := by
  intro p1
  induction p1 with
  | nil =>
      intro p2 h
      cases p2 with
      | nil => simp
      | cons b p2 => simp at h
  | cons a p1 ih =>
      intro p2 h
      cases p2 with
      | nil => simp at h
      | cons b p2 =>
          simp only [List.zipWith_cons_cons, List.sum_cons]
          rw [ih p2 (by simpa using h)]
          ring

lemma sum_zipWith_comm (m1 m2 : ℚ) :
    ∀ (xs ys : List ℚ),
      (List.zipWith (fun a b => (a - m1) * (b - m2)) xs ys).sum
      = (List.zipWith (fun a b => (a - m2) * (b - m1)) ys xs).sum := by
  intro xs
  induction xs with
  | nil => intro ys; cases ys <;> simp
  | cons a xs ih =>
      intro ys
      cases ys with
      | nil => simp
      | cons b ys =>
          simp only [List.zipWith_cons_cons, List.sum_cons]
          rw [ih ys]
          ring

lemma zipWith_self_eq_map (f : ℚ → ℚ → ℚ) :
    ∀ (xs : List ℚ), List.zipWith f xs xs = xs.map (fun a => f a a) := by
  intro xs
  induction xs with
  | nil => rfl
  | cons a xs ih => simp [List.zipWith_cons_cons, ih]

/-- The mean is linear under the spread construction. -/
lemma listMean_spread (p1 p2 : List ℚ) (h : p1.length = p2.length) :
    listMean (spreadOf p1 p2) =
      listMean p1 - hedge_ratio p1 p2 * listMean p2 := by
  unfold listMean spreadOf
  rw [sum_zipWith_sub_smul _ _ _ h, List.length_zipWith, h, min_self,
    sub_div, mul_div_assoc]

lemma demeanedDot_spread (p1 p2 : List ℚ) (h : p1.length = p2.length) :
    demeanedDot (spreadOf p1 p2) p2
      = demeanedDot p1 p2 - hedge_ratio p1 p2 * demeanedDot p2 p2 := by
  unfold demeanedDot
  rw [listMean_spread p1 p2 h]
  unfold spreadOf
  exact sum_zipWith_demeaned _ _ _ p1 p2 h

lemma demeanedDot_comm (xs ys : List ℚ) : demeanedDot xs ys = demeanedDot ys xs := by
  unfold demeanedDot
  exact sum_zipWith_comm _ _ xs ys

lemma sum_nonneg_all_zero :
    ∀ (l : List ℚ), (∀ x ∈ l, 0 ≤ x) → l.sum = 0 → ∀ x ∈ l, x = 0 := by
  intro l
  induction l with
  | nil => intro _ _ x hx; simp at hx
  | cons a l ih =>
      intro hpos hsum x hx
      have ha : 0 ≤ a := hpos a (by simp)
      have hrest : 0 ≤ l.sum := List.sum_nonneg (fun y hy => hpos y (by simp [hy]))
      have hsum' : a + l.sum = 0 := by simpa using hsum
      have ha0 : a = 0 := by linarith
      have hl0 : l.sum = 0 := by linarith
      rcases List.mem_cons.mp hx with hxa | hxl
      · rw [hxa, ha0]
      · exact ih (fun y hy => hpos y (by simp [hy])) hl0 x hxl

lemma demeanedDot_self_eq (ys : List ℚ) :
    demeanedDot ys ys = (ys.map (fun y => (y - listMean ys) ^ 2)).sum := by
  unfold demeanedDot
  rw [zipWith_self_eq_map]
  congr 1
  exact List.map_congr_left (fun a _ => by ring)

/-- A non-constant series has nonzero demeaned second moment. -/
lemma demeanedDot_self_ne_zero (ys : List ℚ) (h : ¬ allSame ys) :
    demeanedDot ys ys ≠ 0 := by
  intro h0
  apply h
  intro x hx y hy
  rw [demeanedDot_self_eq] at h0
  have hz := sum_nonneg_all_zero _ (by
    intro t ht
    rcases List.mem_map.mp ht with ⟨u, _, hu⟩
    rw [← hu]; positivity) h0
  have hx0 : (x - listMean ys) ^ 2 = 0 :=
    hz _ (List.mem_map_of_mem _ hx)
  have hy0 : (y - listMean ys) ^ 2 = 0 :=
    hz _ (List.mem_map_of_mem _ hy)
  have hx1 : x = listMean ys := by
    have := pow_eq_zero_iff (n := 2) (by norm_num) |>.mp hx0
    linarith [sub_eq_zero.mp this]
  have hy1 : y = listMean ys := by
    have := pow_eq_zero_iff (n := 2) (by norm_num) |>.mp hy0
    linarith [sub_eq_zero.mp this]
  rw [hx1, hy1]

/-- C5: for equal-length series of length at least the minimum sample
count (50) with non-constant second series, the hedge ratio is the OLS
slope (demeaned cross moment over demeaned second moment of prices2)
and the resulting spread has zero covariance with prices2: the spread
is orthogonal to the regressor. -/
theorem hedge_ratio_spread_orthogonal :
    ∀ (p1 p2 : List ℚ), p1.length = p2.length → 50 ≤ p1.length →
      ¬ allSame p2 →
      hedge_ratio p1 p2 = demeanedDot p2 p1 / demeanedDot p2 p2 ∧
      covariance (spreadOf p1 p2) p2 = 0 := by
  intro p1 p2 hlen hmin hconst
  refine ⟨rfl, ?_⟩
  unfold covariance
  rw [demeanedDot_spread p1 p2 hlen, demeanedDot_comm p1 p2]
  unfold hedge_ratio
  rw [div_mul_cancel₀ _ (demeanedDot_self_ne_zero p2 hconst)]
  simp

/-- A concrete non-constant 50-sample series: alternating 0 and 1. -/
def altList : List ℚ := (List.range 50).map (fun i => if i % 2 = 0 then 0 else 1)

/-- C5 witness: the orthogonality theorem applied to a concrete pair of
50-sample series. -/
theorem hedge_ratio_spread_orthogonal_witness :
    (altList.length = altList.length ∧ 50 ≤ altList.length ∧ ¬ allSame altList) ∧
    hedge_ratio altList altList
        = demeanedDot altList altList / demeanedDot altList altList ∧
    covariance (spreadOf altList altList) altList = 0 :=
  ⟨⟨rfl, by decide, by decide⟩,
    hedge_ratio_spread_orthogonal altList altList rfl (by decide) (by decide)⟩

/-- C6: every element of the built z-score series is
(spread[i] - mean(spread)) / stdev(spread), where the mean and the
standard deviation are taken over the entire supplied window and the
standard deviation is the square root of the sum of squared deviations
divided by N (ddof = 0, population normalization). -/
theorem z_score_pointwise :
    ∀ (spread : List ℚ) (i : ℕ), i < spread.length →
      (z_score_series spread)[i]? =
        some (((spread.getD i 0 - listMean spread : ℚ) : ℝ) /
          Real.sqrt (((spread.map (fun x => (x - listMean spread) ^ 2)).sum
            / spread.length : ℚ))) := by
  intro spread i h
  unfold z_score_series stdOf popVar
  rw [List.getElem?_map, List.getElem?_eq_getElem h, Option.map_some',
    List.getD_eq_getElem _ _ h]
  congr 1
  push_cast
  rfl

/-- C6 witness: the pointwise z-score identity at a concrete two-element
spread. -/
theorem z_score_pointwise_witness :
    0 < ([0, 2] : List ℚ).length ∧
    (z_score_series [0, 2])[0]? =
      some (((([0, 2] : List ℚ).getD 0 0 - listMean [0, 2] : ℚ) : ℝ) /
        Real.sqrt (((([0, 2] : List ℚ).map
            (fun x => (x - listMean [0, 2]) ^ 2)).sum
          / ([0, 2] : List ℚ).length : ℚ))) :=
  ⟨by decide, z_score_pointwise [0, 2] 0 (by decide)⟩

/-- The result dict of a successful `calculate_metrics` call
(src/positions_app.py lines 165-171); `dates` feeds the chart only and
is omitted. -/
structure MetricsSnapshot where
  current_z : ℝ
  z_history : List ℝ
  price1 : ℚ
  price2 : ℚ

/-- The constant-column detection of `sm.add_constant` under its default
`has_constant='skip'`: a column whose peak-to-peak range is zero (all
entries equal) and whose entries are all nonzero.  When `prices2` is
such a column, `add_constant` returns it unchanged (no intercept is
prepended), the fit has a single parameter, and `results.params[1]`
raises IndexError. -/
def isNonzeroConst (xs : List ℚ) : Prop :=
  allSame xs ∧ ∀ x ∈ xs, x ≠ 0

instance (xs : List ℚ) : Decidable (isNonzeroConst xs) :=
  inferInstanceAs (Decidable (allSame xs ∧ ∀ x ∈ xs, x ≠ 0))

/-- Post-fetch core of `calculate_metrics` (src/positions_app.py lines
141-174), given the two fetched close-price series: truncate both to
the common trailing length, reject lengths below 50 (the `continue`
path ends with `prices1 is None` and the function returns `None`),
otherwise compute hedge ratio, spread and z-score series and return the
result dict.  The trailing truncation `p[-min_len:]` is `List.drop
(length - min_len)`.  When the truncated `prices2` is a nonzero
constant column, `sm.add_constant` (default `has_constant='skip'`)
does not add the intercept, so `results.params[1]` raises IndexError,
which the function's catch-all (lines 172-174) converts to `None`:
that error path is the `isNonzeroConst` guard.  For a constant zero
`prices2` the intercept is added and the rank-deficient fit is solved
by pseudoinverse with slope 0, matching `hedge_ratio`'s 0/0 = 0 here.
`current_z`, `price1` and `price2` are the last elements (`[-1]`); the
lists are nonempty here (length ≥ 50) so the `getLastD` default 0 is
never used.  Note the code performs no check on the spread's standard
deviation: the z-score division happens unconditionally (a zero
standard deviation produces undefined values in numpy, division by
zero in this model). -/
noncomputable def calculate_metrics (p1 p2 : List ℚ) : Option MetricsSnapshot :=
  let min_len := min p1.length p2.length
  if min_len < 50 then none
  else
    let prices1 := p1.drop (p1.length - min_len)
    let prices2 := p2.drop (p2.length - min_len)
    if isNonzeroConst prices2 then none
    else
      let spread := spreadOf prices1 prices2
      let z := z_score_series spread
      some { current_z := z.getLastD 0, z_history := z,
             price1 := prices1.getLastD 0, price2 := prices2.getLastD 0 }

/-- C7: when the aligned length of the two fetched series is below the
minimum sample count 50, the metrics computation returns the sentinel
"unavailable" result (`none`) instead of any metrics — in particular no
z-score series is ever computed from fewer than 50 aligned samples, and
nothing is raised to the caller. -/
theorem insufficient_data_sentinel :
    ∀ (p1 p2 : List ℚ), min p1.length p2.length < 50 →
      calculate_metrics p1 p2 = none := by
  intro p1 p2 h
  simp only [calculate_metrics]
  rw [if_pos h]

/-- C7 witness: a one-sample pair yields the unavailable sentinel. -/
theorem insufficient_data_sentinel_witness :
    min ([(1 : ℚ)].length) ([(1 : ℚ)].length) < 50 ∧
    calculate_metrics [(1 : ℚ)] [(1 : ℚ)] = none :=
  ⟨by decide, insufficient_data_sentinel [(1 : ℚ)] [(1 : ℚ)] (by decide)⟩

lemma sum_map_mul_const (c : ℚ) :
    ∀ (ys : List ℚ), (ys.map (fun b => c * b)).sum = c * ys.sum := by
  intro ys
  induction ys with
  | nil => simp
  | cons a ys ih => simp [ih]; ring

lemma listMean_map_mul (c : ℚ) (ys : List ℚ) :
    listMean (ys.map (fun b => c * b)) = c * listMean ys := by
  unfold listMean
  rw [List.length_map, sum_map_mul_const, mul_div_assoc]

lemma sum_zipWith_scaled (c m : ℚ) :
    ∀ (ys : List ℚ),
      (List.zipWith (fun a b => (a - m) * (b - c * m)) ys
        (ys.map (fun b => c * b))).sum
      = c * (List.zipWith (fun a b => (a - m) * (b - m)) ys ys).sum := by
  intro ys
  induction ys with
  | nil => simp
  | cons a ys ih =>
      simp only [List.map_cons, List.zipWith_cons_cons, List.sum_cons]
      rw [ih]
      ring

lemma demeanedDot_mul_right (c : ℚ) (ys : List ℚ) :
    demeanedDot ys (ys.map (fun b => c * b)) = c * demeanedDot ys ys := by
  unfold demeanedDot
  rw [listMean_map_mul]
  exact sum_zipWith_scaled c _ ys

lemma hedge_ratio_scaled (c : ℚ) (ys : List ℚ)
    (h : demeanedDot ys ys ≠ 0) :
    hedge_ratio (ys.map (fun b => c * b)) ys = c := by
  unfold hedge_ratio
  rw [demeanedDot_mul_right]
  exact mul_div_cancel_right₀ c h

lemma zipWith_scaled_sub (c : ℚ) :
    ∀ (ys : List ℚ),
      List.zipWith (fun a b => a - c * b) (ys.map (fun b => c * b)) ys
        = ys.map (fun _ => 0) := by
  intro ys
  induction ys with
  | nil => rfl
  | cons a ys ih =>
      simp only [List.map_cons, List.zipWith_cons_cons, ih, sub_self]

lemma spreadOf_scaled (c : ℚ) (ys : List ℚ)
    (h : demeanedDot ys ys ≠ 0) :
    spreadOf (ys.map (fun b => c * b)) ys = ys.map (fun _ => 0) := by
  unfold spreadOf
  rw [hedge_ratio_scaled c ys h]
  exact zipWith_scaled_sub c ys

lemma sum_map_zero : ∀ (ys : List ℚ), (ys.map (fun _ => (0 : ℚ))).sum = 0 := by
  intro ys
  induction ys with
  | nil => rfl
  | cons a ys ih => simp [ih]

lemma popVar_const_zero (ys : List ℚ) :
    popVar (ys.map (fun _ => (0 : ℚ))) = 0 := by
  unfold popVar listMean
  rw [sum_map_zero, zero_div]
  have hmap : (ys.map (fun _ => (0 : ℚ))).map (fun x => (x - (0 : ℚ)) ^ 2)
      = (ys.map (fun _ => (0 : ℚ))).map (fun _ => (0 : ℚ)) := by
    apply List.map_congr_left
    intro a ha
    rcases List.mem_map.mp ha with ⟨u, _, hu⟩
    rw [← hu]
    norm_num
  rw [hmap, sum_map_zero, zero_div]

/-- The degenerate concrete input: prices1 is exactly twice prices2, so
the OLS slope is 2 and the spread is identically zero. -/
def scaled2 : List ℚ := altList.map (fun b => 2 * b)

/-- C4 counterexample: a 50-sample pair whose spread has standard
deviation exactly zero (population variance 0), yet `calculate_metrics`
does not fail and does not report the pair unusable — it returns a
result, refuting the claim that a degenerate spread yields a failure. -/
theorem degenerate_spread_not_rejected :
    popVar (spreadOf scaled2 altList) = 0 ∧
    calculate_metrics scaled2 altList ≠ none := by
  have hS : demeanedDot altList altList ≠ 0 :=
    demeanedDot_self_ne_zero altList (by decide)
  constructor
  · unfold scaled2
    rw [spreadOf_scaled 2 altList hS, popVar_const_zero]
  · simp only [calculate_metrics]
    rw [if_neg (by decide), if_neg (by decide)]
    exact Option.some_ne_none _

/-- C4 (amended): the spread/z-score build performs no degenerate-spread
check — whenever the pair passes the 50-sample length check and the
hedge-ratio regression itself succeeds (the truncated prices2 is not a
nonzero constant column, so `params[1]` exists), a metrics result is
returned even when the spread standard deviation is exactly zero: the
z-score division is performed unconditionally and a degenerate spread
is never reported unusable. -/
theorem no_degenerate_spread_check :
    ∀ (p1 p2 : List ℚ), 50 ≤ min p1.length p2.length →
      ¬ isNonzeroConst (p2.drop (p2.length - min p1.length p2.length)) →
      (calculate_metrics p1 p2).isSome = true := by
  intro p1 p2 h hreg
  simp only [calculate_metrics]
  rw [if_neg (by omega), if_neg hreg]
  rfl

/-- C4 witness: the amended theorem applied to the degenerate
constant-spread input (zero spread variance, non-constant prices2). -/
theorem no_degenerate_spread_check_witness :
    (50 ≤ min scaled2.length altList.length ∧
      ¬ isNonzeroConst
          (altList.drop (altList.length - min scaled2.length altList.length))) ∧
    (calculate_metrics scaled2 altList).isSome = true :=
  ⟨⟨by decide, by decide⟩,
    no_degenerate_spread_check scaled2 altList (by decide) (by decide)⟩

/-- The degenerate-regression error path is live: a nonzero constant
prices2 of aligned length 50 makes `sm.add_constant` skip the
intercept, `results.params[1]` raises IndexError, and the catch-all
yields the `None` sentinel. -/
lemma constant_regressor_unavailable :
    calculate_metrics (List.replicate 50 (3 : ℚ)) (List.replicate 50 (2 : ℚ))
      = none := by
  simp only [calculate_metrics]
  rw [if_neg (by decide), if_pos (by decide)]

/-- Modelled from the spec: the evaluation loop in src/positions_app.py
computes no progress-to-target value (no such field exists in the
per-position result record); the spec, section 4.4, defines
progress = clamp(1 - abs(current_z)/abs(entry_z), 0, 1), treated as 0
rather than a division fault when entry_z = 0. -/
def progress (entry_z curr_z : ℚ) : ℚ :=
  if entry_z = 0 then 0
  else max 0 (min 1 (1 - |curr_z| / |entry_z|))

/-- C8: the progress-to-target value equals
clamp(1 - abs(current_z)/abs(entry_z), 0, 1) whenever the entry z-score
is nonzero, is reported as 0 when the entry z-score is 0 (no division
fault — the division is never evaluated in that case), and always lies
in [0, 1]. -/
theorem progress_clamp :
    ∀ e c : ℚ,
      (e ≠ 0 → progress e c = max 0 (min 1 (1 - |c| / |e|))) ∧
      progress 0 c = 0 ∧
      0 ≤ progress e c ∧ progress e c ≤ 1 := by
  intro e c
  refine ⟨fun h => by simp [progress, h], by simp [progress], ?_, ?_⟩
  · unfold progress
    split_ifs
    · norm_num
    · exact le_max_left _ _
  · unfold progress
    split_ifs
    · norm_num
    · exact max_le (by norm_num) (min_le_left _ _)

/-- C8 witness: the clamp formula instantiated at a nonzero entry
z-score. -/
theorem progress_clamp_witness :
    (-2 : ℚ) ≠ 0 ∧
    progress (-2) (-1) = max 0 (min 1 (1 - |(-1 : ℚ)| / |(-2 : ℚ)|)) :=
  ⟨by decide, (progress_clamp (-2) (-1)).1 (by decide)⟩

/-- Add-position handler (src/positions_app.py lines 86-98): appends the
new dict, whose status field is always `'active'`. -/
def addPosition (ps : List Position) (coin1 coin2 : String)
    (entry_z size : ℚ) : List Position :=
  ps ++ [{ pair := coin1 ++ "/" ++ coin2, coin1 := coin1, coin2 := coin2,
           entry_z := entry_z, size := size, status := "active" }]

/-- Delete button handler (src/positions_app.py lines 314-316):
`st.session_state.positions.pop(p['id'])` — the record at the given
index is discarded entirely. -/
def deletePosition (ps : List Position) (i : ℕ) : List Position :=
  ps.eraseIdx i

/-- Modelled from the spec: src/positions_app.py offers no close action
(the only operator actions are add and delete); the spec, section 4.4,
defines close as the transition active → closed that retains the
record, with no transitions out of closed.  The record at the given
index moves to status "closed" when it is active; otherwise nothing
changes. -/
def closePosition (ps : List Position) (i : ℕ) : List Position :=
  match ps[i]? with
  | some p =>
      if p.status = "active" then ps.set i { p with status := "closed" }
      else ps
  | none => ps

lemma mem_of_mem_eraseIdx {α : Type} {a : α} :
    ∀ (l : List α) (i : ℕ), a ∈ l.eraseIdx i → a ∈ l := by
  intro l
  induction l with
  | nil => intro i h; simp at h
  | cons b l ih =>
      intro i h
      cases i with
      | zero =>
          simp only [List.eraseIdx] at h
          exact List.mem_cons_of_mem _ h
      | succ n =>
          simp only [List.eraseIdx] at h
          rcases List.mem_cons.mp h with hb | hl
          · rw [hb]; exact List.mem_cons_self _ _
          · exact List.mem_cons_of_mem _ (ih n hl)

/-- C9: position lifecycle.  Creation (add) appends a record in status
"active"; the close action either leaves an entry unchanged or moves an
"active" entry to "closed" (so there is no transition out of "closed"
or from any other status); delete only discards records (every
surviving record was already present, unchanged); and every row
produced by an evaluation pass comes from a position whose status is
"active" — non-active positions are never evaluated. -/
theorem position_lifecycle :
    ∀ (ps : List Position) (c1 c2 : String) (z s : ℚ) (i : ℕ),
      (∃ p, addPosition ps c1 c2 z s = ps ++ [p] ∧ p.status = "active") ∧
      (∀ j : ℕ,
        (closePosition ps i)[j]? = ps[j]? ∨
        ∃ p, ps[j]? = some p ∧ p.status = "active" ∧
          (closePosition ps i)[j]? = some { p with status := "closed" }) ∧
      (∀ p : Position, p ∈ deletePosition ps i → p ∈ ps) ∧
      (∀ (fetch : String → String → Option FetchedData) (r : Row),
        r ∈ evalLoop fetch ps →
          ∃ q, ps[r.id]? = some q ∧ q.status = "active") := by
  intro ps c1 c2 z s i
  refine ⟨⟨_, rfl, rfl⟩, ?_, ?_, ?_⟩
  · intro j
    unfold closePosition
    cases hp : ps[i]? with
    | none => left; rfl
    | some p =>
        dsimp only
        by_cases hs : p.status = "active"
        · rw [if_pos hs]
          by_cases hij : i = j
          · subst hij
            right
            refine ⟨p, hp, hs, ?_⟩
            have hlt : i < ps.length := by
              rcases List.getElem?_eq_some.mp hp with ⟨h, _⟩
              exact h
            exact List.getElem?_set_eq_of_lt _ hlt
          · left
            exact List.getElem?_set_ne hij
        · rw [if_neg hs]; left; rfl
  · intro p hp
    exact mem_of_mem_eraseIdx ps i hp
  · intro fetch r hr
    rw [evalLoop, evalLoopAux_eq_map] at hr
    rcases List.mem_map.mp hr with ⟨ip, hmem, hrow⟩
    have hact : ip.2.status = "active" := by
      have := List.of_mem_filter hmem
      simpa using this
    have hmem' : ip ∈ ps.enum := List.mem_of_mem_filter hmem
    have hget : ps[ip.1]? = some ip.2 := List.mem_enum_iff_getElem?.mp hmem'
    have hid : r.id = ip.1 := by
      rw [← hrow]
      cases hfe : fetch ip.2.coin1 ip.2.coin2 <;> simp [rowOf, hfe, Row.id]
    exact ⟨ip.2, by rw [hid]; exact hget, hact⟩

/-- Concrete positions used to instantiate the lifecycle theorem. -/
def posA : Position :=
  { pair := "A/B", coin1 := "A", coin2 := "B",
    entry_z := -2, size := 100, status := "active" }

/-- Second concrete position. -/
def posB : Position :=
  { pair := "C/D", coin1 := "C", coin2 := "D",
    entry_z := 1, size := 50, status := "active" }

/-- C9 witness: the delete conjunct instantiated at a concrete
two-position list — the survivor of a delete was already present. -/
theorem position_lifecycle_witness :
    posB ∈ deletePosition [posA, posB] 0 ∧ posB ∈ [posA, posB] :=
  ⟨by decide,
    (position_lifecycle [posA, posB] "A" "B" 1 1 0).2.2.1 posB (by decide)⟩
